import Mathlib

/-!
Shallow embedding of the CGP core of `src/cgp/cgp.py` (classes `Gen`,
`OutputGen`, `FunctionGen`, `CgpConfig`, `Individual`, `CGP`).

Modelling conventions:
* `np.random.randint` is modelled by an arbitrary stream `rng : Nat → Nat`
  of raw draws together with an explicit stream position; a draw with bound
  `b > 0` yields `rng pos % b` and advances the position.  Quantifying over
  all streams quantifies over all possible random outcomes.
* Python's unbounded `while` loops are given explicit fuel and return
  `Option`; `none` means the loop did not finish within the fuel (or, for
  `mutateFunctionGene` applied to an output gene, that the Python code
  would raise `AttributeError`).
* The float `mutation_rate` is modelled as the exact rational
  `mr_num / mr_den`; `int(num_genes * mutation_rate)` becomes natural
  division (floor, which agrees with Python truncation on non-negatives).
-/

namespace CgpNas

/-- Mirror of `CgpConfig.__init__` (src/cgp/cgp.py).  `functions` only
matters through its length and per-function arity, so only
`function_inputs` is kept. -/
structure CgpConfig where
  rows : Nat
  cols : Nat
  level_back : Nat
  function_inputs : List Nat
  mr_num : Nat
  mr_den : Nat
deriving DecidableEq, Repr

/-- Field `self.num_input = 1` in `CgpConfig.__init__`. -/
def CgpConfig.num_input (_ : CgpConfig) : Nat := 1

/-- Field `self.num_output = 1` in `CgpConfig.__init__`. -/
def CgpConfig.num_output (_ : CgpConfig) : Nat := 1

/-- Field `self.num_nodes = rows * cols`. -/
def CgpConfig.num_nodes (c : CgpConfig) : Nat := c.rows * c.cols

/-- Field `self.num_func_genes = len(functions)`. -/
def CgpConfig.num_func_genes (c : CgpConfig) : Nat := c.function_inputs.length

/-- Field `self.max_inputs = np.max(function_inputs)`. -/
def CgpConfig.max_inputs (c : CgpConfig) : Nat := c.function_inputs.foldr max 0

/-- A gene: `FunctionGen` (fnc_idx, num_inputs, inputs array) or
`OutputGen` (num_inputs = 1 from the `Gen` base class, inputs array).
Both keep an `inputs` array of length `max_inputs`. -/
inductive Gene where
  | functionGen (fnc_idx : Nat) (num_inputs : Nat) (inputs : List Nat)
  | outputGen (num_inputs : Nat) (inputs : List Nat)
deriving DecidableEq, Repr

instance : Inhabited Gene := ⟨Gene.outputGen 1 []⟩

def Gene.inputs : Gene → List Nat
  | .functionGen _ _ ins => ins
  | .outputGen _ ins => ins

def Gene.num_inputs : Gene → Nat
  | .functionGen _ n _ => n
  | .outputGen n _ => n

/-- Flag `self.is_output` set by the constructors. -/
def Gene.is_output : Gene → Bool
  | .functionGen _ _ _ => false
  | .outputGen _ _ => true

/-- In-place store `gene.inputs[i] = v`. -/
def Gene.setInput : Gene → Nat → Nat → Gene
  | .functionGen f n ins, i, v => .functionGen f n (ins.set i v)
  | .outputGen n ins, i, v => .outputGen n (ins.set i v)

/-- Draw `np.random.randint(bound)` at stream position `pos` (bound `0` never
occurs on reachable paths; numpy would raise there). -/
def randint (rng : Nat → Nat) (pos bound : Nat) : Nat :=
  if bound = 0 then 0 else rng pos % bound

/-- The `(min_con_id, max_con_id)` computation that appears verbatim both in
`Individual.init_genes` and in `Individual.__mutate_connection_gene`:
`col = min(position // rows, cols)`, `max = col*rows + num_input`,
`min = 0` unless `col - level_back >= 0`, then
`min = (col - level_back)*rows + num_input`. -/
def legalRange (cfg : CgpConfig) (position : Nat) : Nat × Nat :=
  let col := min (position / cfg.rows) cfg.cols
  let maxConId := col * cfg.rows + cfg.num_input
  let minConId :=
    if cfg.level_back ≤ col then (col - cfg.level_back) * cfg.rows + cfg.num_input
    else 0
  (minConId, maxConId)

/-- The `for i in range(len(gene.inputs))` loop of `init_genes`:
`gene.inputs[i] = min_con_id + np.random.randint(max_con_id - min_con_id)`. -/
def sampleInputs (rng : Nat → Nat) (minC maxC : Nat) : Nat → Nat → List Nat × Nat
  | 0, pos => ([], pos)
  | k + 1, pos =>
      ((minC + randint rng pos (maxC - minC)) :: (sampleInputs rng minC maxC k (pos + 1)).1,
       (sampleInputs rng minC maxC k (pos + 1)).2)

/-- One iteration of the `init_genes` node loop: build the gene at `node`
(random function gene below `num_nodes`, output gene above) and randomly
connect all of its `max_inputs` slots inside the legal range. -/
def initGene (cfg : CgpConfig) (rng : Nat → Nat) (node pos : Nat) : Gene × Nat :=
  let mn := (legalRange cfg node).1
  let mx := (legalRange cfg node).2
  if node < cfg.num_nodes then
    let f := randint rng pos cfg.num_func_genes
    (Gene.functionGen f (cfg.function_inputs.getD f 0)
        (sampleInputs rng mn mx cfg.max_inputs (pos + 1)).1,
     (sampleInputs rng mn mx cfg.max_inputs (pos + 1)).2)
  else
    (Gene.outputGen 1 (sampleInputs rng mn mx cfg.max_inputs pos).1,
     (sampleInputs rng mn mx cfg.max_inputs pos).2)

def initGenesGo (cfg : CgpConfig) (rng : Nat → Nat) : List Nat → Nat → List Gene × Nat
  | [], pos => ([], pos)
  | node :: rest, pos =>
      ((initGene cfg rng node pos).1
          :: (initGenesGo cfg rng rest (initGene cfg rng node pos).2).1,
       (initGenesGo cfg rng rest (initGene cfg rng node pos).2).2)

/-- Method `Individual.init_genes`: one gene per `node in range(num_nodes + num_output)`. -/
def initGenes (cfg : CgpConfig) (rng : Nat → Nat) (pos : Nat) : List Gene × Nat :=
  initGenesGo cfg rng (List.range (cfg.num_nodes + cfg.num_output)) pos

/-- Method `Individual.__walk_to_out`: depth-first backward walk marking reachable
nodes.  The fuel bounds the recursion depth; every recursive call has just
flipped one flag from false to true, so depth `genes.length + 1` can never
be exhausted on well-formed masks and the fuelled function agrees with the
Python recursion. -/
def walkToOut (cfg : CgpConfig) (genes : List Gene) : Nat → Nat → List Bool → List Bool
  | 0, _, act => act
  | fuel + 1, node, act =>
    if act.getD node true then act
    else
      let act1 := act.set node true
      let g := genes.getD node default
      (List.range g.num_inputs).foldl
        (fun a i =>
          let inp := g.inputs.getD i 0
          if cfg.num_input ≤ inp then walkToOut cfg genes fuel (inp - cfg.num_input) a
          else a)
        act1

/-- Method `Individual.check_active`: reset the mask to all-false, then walk from
every output gene `num_nodes + node`. -/
def check_active (cfg : CgpConfig) (genes : List Gene) : List Bool :=
  (List.range cfg.num_output).foldl
    (fun act k => walkToOut cfg genes (genes.length + 1) (cfg.num_nodes + k) act)
    (List.replicate genes.length false)

/-- The mutable state of an `Individual` that the mutation engine touches:
the gene list, the active mask (`none` before `init_genes`, i.e. not yet
spawned), and the evaluator-assigned score (`None` until evaluated). -/
structure Individual where
  genes : List Gene
  active : Option (List Bool)
  score : Option ℚ := none
deriving DecidableEq, Repr

/-- Method `Individual.is_spawned`: `self.active is not None`. -/
def Individual.is_spawned (ind : Individual) : Bool := ind.active.isSome

/-- Classmethod `Individual.spawn`: fresh instance plus `init_genes` (which ends by
running `check_active`). -/
def spawn (cfg : CgpConfig) (rng : Nat → Nat) (pos : Nat) : Individual × Nat :=
  ({ genes := (initGenes cfg rng pos).1,
     active := some (check_active cfg (initGenes cfg rng pos).1),
     score := none },
   (initGenes cfg rng pos).2)

/-- The resampling loop of `Individual.__mutate_function_gene`:
`fnc_idx = randint(num_func_genes)`, then `while fnc_idx == current:`
resample.  Fuel bounds the `while`; with a single-member function set the
loop never exits. -/
def resampleFnc (cfg : CgpConfig) (rng : Nat → Nat) (current : Nat) :
    Nat → Nat → Option (Nat × Nat)
  | 0, _ => none
  | fuel + 1, pos =>
      let f := randint rng pos cfg.num_func_genes
      if f = current then resampleFnc cfg rng current fuel (pos + 1)
      else some (f, pos + 1)

/-- Method `Individual.__mutate_function_gene` on the gene at the chosen index:
replace `fnc_idx` by a different function and set `num_inputs` to the new
function's arity; the Python method always returns `True`.  On an output
gene the attribute read `self.genes[gene_idx].fnc_idx` would raise
(`AttributeError`), modelled as `none`. -/
def mutateFunctionGene (cfg : CgpConfig) (rng : Nat → Nat) (g : Gene)
    (fuel pos : Nat) : Option (Gene × Nat) :=
  match g with
  | Gene.outputGen _ _ => none
  | Gene.functionGen fnc _ ins =>
      match resampleFnc cfg rng fnc fuel pos with
      | none => none
      | some (f, pos') =>
          some (Gene.functionGen f (cfg.function_inputs.getD f 0) ins, pos')

/-- The inner resampling of `__mutate_connection_gene`:
`n = min + randint(span)`, then `while n == inputs[i]:` resample. -/
def resampleConn (rng : Nat → Nat) (mn span avoid : Nat) :
    Nat → Nat → Option (Nat × Nat)
  | 0, _ => none
  | fuel + 1, pos =>
      let n := mn + randint rng pos span
      if n = avoid then resampleConn rng mn span avoid fuel (pos + 1)
      else some (n, pos + 1)

/-- The slot scan of `__mutate_connection_gene`: for each used slot `i`, draw
a coin `randint(0, 2)`; if it is nonzero and the legal span exceeds one,
resample that slot to a different in-range value and return `True`
(one slot at most); otherwise continue, returning `False` at the end. -/
def connSlots (rng : Nat → Nat) (mn mx : Nat) (g : Gene) (fuel : Nat) :
    List Nat → Nat → Option (Gene × Bool × Nat)
  | [], pos => some (g, false, pos)
  | i :: rest, pos =>
      let coin := randint rng pos 2
      if coin ≠ 0 ∧ 1 < mx - mn then
        match resampleConn rng mn (mx - mn) (g.inputs.getD i 0) fuel (pos + 1) with
        | none => none
        | some (n, pos2) => some (g.setInput i n, true, pos2)
      else connSlots rng mn mx g fuel rest (pos + 1)

/-- Method `Individual.__mutate_connection_gene` at `gene_idx`: recompute the legal
range (same formula as `init_genes`) and scan the gene's used slots. -/
def mutateConnectionGene (cfg : CgpConfig) (rng : Nat → Nat) (geneIdx : Nat)
    (g : Gene) (fuel pos : Nat) : Option (Gene × Bool × Nat) :=
  connSlots rng (legalRange cfg geneIdx).1 (legalRange cfg geneIdx).2 g fuel
    (List.range g.num_inputs) pos

/-- Budget `int(num_genes * mutation_rate)` with the rate `mr_num / mr_den`. -/
def mutateBound (cfg : CgpConfig) (numGenes : Nat) : Nat :=
  numGenes * cfg.mr_num / cfg.mr_den

/-- The `while cnt <= int(num_genes * mutation_rate):` loop of
`Individual.mutate`: draw `idx = randint(0, num_genes)`; if `idx` addresses
a grid node, apply the function-gene mutation (counts 1); then apply the
connection mutation at the same index (counts its boolean result).
Returns the final genes, the event count `cnt` and the stream position. -/
def mutateLoop (cfg : CgpConfig) (rng : Nat → Nat) (bound : Nat) :
    Nat → List Gene → Nat → Nat → Option (List Gene × Nat × Nat)
  | 0, _, _, _ => none
  | fuel + 1, genes, cnt, pos =>
      if cnt ≤ bound then
        let idx := randint rng pos genes.length
        let step1 : Option (List Gene × Nat × Nat) :=
          if idx < cfg.num_nodes then
            match mutateFunctionGene cfg rng (genes.getD idx default) fuel (pos + 1) with
            | none => none
            | some (g, pos2) => some (genes.set idx g, cnt + 1, pos2)
          else some (genes, cnt, pos + 1)
        match step1 with
        | none => none
        | some (genes1, cnt1, pos2) =>
            match mutateConnectionGene cfg rng idx (genes1.getD idx default) fuel pos2 with
            | none => none
            | some (g, success, pos3) =>
                mutateLoop cfg rng bound fuel (genes1.set idx g)
                  (cnt1 + (if success then 1 else 0)) pos3
      else some (genes, cnt, pos)

/-- Method `Individual.mutate(force)`: re-initialize if not spawned; remember the
old mask when forcing; run the budgeted mutation loop; recompute the mask;
if forcing and the mask is unchanged, redo the whole mutation. -/
def mutate (cfg : CgpConfig) (rng : Nat → Nat) (force : Bool) :
    Nat → Individual → Nat → Option (Individual × Nat)
  | 0, _, _ => none
  | fuel + 1, ind, pos =>
      let ind0 : Individual :=
        if ind.is_spawned then ind
        else
          { genes := (initGenes cfg rng pos).1,
            active := some (check_active cfg (initGenes cfg rng pos).1),
            score := ind.score }
      let pos0 : Nat := if ind.is_spawned then pos else (initGenes cfg rng pos).2
      let oldNet := ind0.active
      match mutateLoop cfg rng (mutateBound cfg ind0.genes.length) fuel ind0.genes 0 pos0 with
      | none => none
      | some (genes1, _cnt, pos1) =>
          let act1 := check_active cfg genes1
          let ind1 : Individual := { genes := genes1, active := some act1, score := ind0.score }
          if force ∧ some act1 = oldNet then mutate cfg rng force fuel ind1 pos1
          else some (ind1, pos1)

/-! ### The selection scan and the generation loop of `CGP.run`

The second `for idx, child in enumerate(children):` loop of `CGP.run`
(src/cgp/cgp.py lines 552-580).  Replacement of the parent and the
`current_epoch += 1` statement depend only on the evaluated scores, so
children are represented by their scores here; the parent reference update
`self.parent = child` is represented by carrying the current parent score. -/

/-- One pass of the selection loop: for each child in index order, if its
score is positive, replace the parent when the injected comparator
`comp(parent_score, child_score)` holds (so later children are compared to
the just-replaced parent); then — as a sibling of the `if child.score > 0:`
test (line 580, same indentation as line 553), hence once per child
regardless of its score — execute `current_epoch += 1`. -/
def selectLoop (comp : ℚ → ℚ → Bool) (parentScore : ℚ) (childScores : List ℚ)
    (epoch : Nat) : ℚ × Nat :=
  childScores.foldl
    (fun st s =>
      ((if 0 < s then (if comp st.1 s then s else st.1) else st.1), st.2 + 1))
    (parentScore, epoch)

/-- The `while current_epoch < max_epochs:` loop of `CGP.run`: each
iteration produces and evaluates `numChildren` children (their scores given
by the oracle `scoreOf generation childIndex`), then runs the selection
scan, which also advances `current_epoch`.  Returns the final parent score
and the number of loop iterations (generations) actually executed; `none`
when the loop does not finish within the fuel. -/
def runLoop (comp : ℚ → ℚ → Bool) (maxEpochs numChildren : Nat)
    (scoreOf : Nat → Nat → ℚ) :
    Nat → ℚ → Nat → Nat → Option (ℚ × Nat)
  | 0, _, _, _ => none
  | fuel + 1, parentScore, epoch, gens =>
      if epoch < maxEpochs then
        let scores := (List.range numChildren).map (scoreOf gens)
        let st := selectLoop comp parentScore scores epoch
        runLoop comp maxEpochs numChildren scoreOf fuel st.1 st.2 (gens + 1)
      else some (parentScore, gens)

/-! ### `CGP.fast_non_dominated_sort` (src/cgp/cgp.py lines 385-430)

The sort reads only `.score` and `.total_params` of its argument objects and
all membership tests (`not in`) fall back to object identity, so genomes are
modelled by their two objectives and fronts are lists of population indices
(distinct indices = distinct objects). -/

/-- The two objectives of an evaluated genome as read by the sort. -/
structure EvalGenome where
  score : Int
  total_params : Int
deriving DecidableEq, Repr

instance : Inhabited EvalGenome := ⟨⟨0, 0⟩⟩

/-- The threefold dominance test of the first `if` in the sort's pair loop:
`(p.score > q.score and p.total_params < q.total_params) or
 (p.score >= q.score and p.total_params < q.total_params) or
 (p.score > q.score and p.total_params <= q.total_params)`. -/
def dominates (p q : EvalGenome) : Prop :=
  (p.score > q.score ∧ p.total_params < q.total_params) ∨
  (p.score ≥ q.score ∧ p.total_params < q.total_params) ∨
  (p.score > q.score ∧ p.total_params ≤ q.total_params)

instance (p q : EvalGenome) : Decidable (dominates p q) := by
  unfold dominates; infer_instance

/-- Set `S[p]`: the indices `q` that `p` dominates (each appended once — the
`not in S[p]` guard never fires for distinct loop indices). -/
def dominatedSet (gs : List EvalGenome) (p : Nat) : List Nat :=
  (List.range gs.length).filter
    (fun q => decide (dominates (gs.getD p default) (gs.getD q default)))

/-- Count `n[p]`: the number of `q` that dominate `p` (the `elif` branch; the two
branches are mutually exclusive, so the `elif` counts exactly the
dominators).  Kept as `Int` because the peel loop drives counts negative. -/
def domCount (gs : List EvalGenome) (p : Nat) : Int :=
  ((List.range gs.length).filter
    (fun q => ¬ decide (dominates (gs.getD p default) (gs.getD q default)) ∧
      decide (dominates (gs.getD q default) (gs.getD p default)))).length

/-- Front `front[0]`: all `p` with `n[p] == 0`, in index order. -/
def frontZero (gs : List EvalGenome) : List Nat :=
  (List.range gs.length).filter (fun p => decide (domCount gs p = 0))

/-- The body of the peel `while`: `Q = []`, then
`for p in front[i]: for q in range(0, len(S)): n[q] -= 1;
 if n[q] == 0: Q.append(q)` — note the loop over ALL `q`, with the member
`p` itself unused (the source's `for q in S[p]:` is commented out). -/
def peelStep (N : Nat) (cur : List Nat) (n : List Int) : List Nat × List Int :=
  cur.foldl
    (fun acc _p =>
      (List.range N).foldl
        (fun st q =>
          let n' := st.2.set q (st.2.getD q 0 - 1)
          if n'.getD q 0 = 0 then
            ((if st.1.contains q then st.1 else st.1 ++ [q]), n')
          else (st.1, n'))
        acc)
    (([] : List Nat), n)

/-- The peel `while front[i] != []:` loop, including the final
`del front[len(front) - 1]` of the trailing empty front.  The fuel is set to
`N + 1` by the caller, which the loop can never exhaust (each iteration with
a nonempty front strictly shrinks the set of positive counts). -/
def peelFronts (N : Nat) : Nat → List Nat → List Int → List (List Nat)
  | 0, _, _ => []
  | fuel + 1, cur, n =>
      if cur = [] then []
      else
        let step := peelStep N cur n
        cur :: peelFronts N fuel step.1 step.2

/-- Method `CGP.fast_non_dominated_sort`, returning fronts of population indices. -/
def fastNonDominatedSort (gs : List EvalGenome) : List (List Nat) :=
  peelFronts gs.length (gs.length + 1) (frontZero gs)
    ((List.range gs.length).map (domCount gs))

/-! ### `CGP.load_parent` (src/cgp/cgp.py lines 439-464) and bootstrap -/

/-- A value recovered by `pickle.load` from an existing checkpoint file:
a pickled `Individual`, some other object that happens to expose a numeric
`score` attribute, or some other object without one. -/
inductive PickleValue where
  | indiv (i : Individual)
  | otherWithScore (s : ℚ)
  | otherNoScore
deriving DecidableEq

/-- The bytes of an existing checkpoint file: either `pickle.load`
succeeds with a value, or it raises (corrupt stream). -/
inductive FileContent where
  | pickled (v : PickleValue)
  | unreadable
deriving DecidableEq

/-- Method `CGP.load_parent`: the `none` input models `filename is None or not
os.path.exists(filename)`.  Otherwise the source unpickles, then *prints*
`"loaded file %s with score %.4f" % (filename, instance.score)` — an
attribute read and float format that happen before the `isinstance` check —
and only then warns and returns `None` for non-`Individual` instances.
`Except.error` models an uncaught exception. -/
def load_parent (file : Option FileContent) : Except String (Option Individual) :=
  match file with
  | none => Except.ok none
  | some FileContent.unreadable => Except.error "UnpicklingError"
  | some (FileContent.pickled v) =>
      match v with
      | PickleValue.otherNoScore => Except.error "AttributeError"
      | PickleValue.otherWithScore _ => Except.ok none
      | PickleValue.indiv i =>
          match i.score with
          | none => Except.error "TypeError"
          | some _ => Except.ok (some i)

/-- The bootstrap at the top of `CGP.run`: `if self.parent is None:`
spawn a fresh random parent (its external evaluation is orthogonal to the
genotype produced). -/
def bootstrapParent (cfg : CgpConfig) (rng : Nat → Nat)
    (parent : Option Individual) (pos : Nat) : Individual × Nat :=
  match parent with
  | none => spawn cfg rng pos
  | some p => (p, pos)

/-! ### Heap model for `Individual.clone` (src/cgp/cgp.py lines 205-220)

Clone independence is a statement about aliasing of mutable Python state, so
the mutable payload of each `Individual` (gene array and active mask) is
placed in an explicit heap of cells addressed by allocation index.
`clone` performs `instance.genes = deepcopy(self.genes)` and
`instance.active = self.active.copy()`, i.e. it allocates a fresh cell
holding copies; `mutate` writes only through `self`, i.e. only to the cell
of the individual being mutated. -/

/-- One heap cell per allocated individual: its gene array and mask. -/
abbrev Heap : Type := List (List Gene × List Bool)

/-- Method `Individual.clone` at address `p`: allocate a fresh cell (new address
`h.length`) containing deep copies of `p`'s genes and mask. -/
def cloneAlloc (h : Heap) (p : Nat) : Heap × Nat :=
  (h ++ [List.getD h p ([], [])], List.length h)

/-- Method `Individual.mutate` called on the individual stored at address `c`:
read the cell, run the pure mutation, write the result back to `c`. -/
def mutateAt (cfg : CgpConfig) (rng : Nat → Nat) (fuel : Nat) (h : Heap)
    (c pos : Nat) : Option (Heap × Nat) :=
  let cell := List.getD h c ([], [])
  match mutate cfg rng true fuel { genes := cell.1, active := some cell.2 } pos with
  | none => none
  | some (ind', pos') => some (List.set h c (ind'.genes, ind'.active.getD []), pos')

/-- A sequence of `mutate` calls on the individual at address `c`, each with
its own random stream, fuel and stream position. -/
def mutateSeq (cfg : CgpConfig) (c : Nat) :
    List ((Nat → Nat) × Nat × Nat) → Heap → Option Heap
  | [], h => some h
  | (rng, fuel, pos) :: rest, h =>
      match mutateAt cfg rng fuel h c pos with
      | none => none
      | some (h', _) => mutateSeq cfg c rest h'

/-! ### Invariant predicates -/

/-- Structural sanity of a configuration, as produced by the constructor on
the intended inputs: a populated grid, a positive level-back window and at
least one function of arity at least one (the spec requires every declared
arity to be at least 1, hence `np.max` is at least 1). -/
def CfgOk (cfg : CgpConfig) : Prop :=
  1 ≤ cfg.rows ∧ 1 ≤ cfg.level_back ∧ 1 ≤ cfg.max_inputs

instance (cfg : CgpConfig) : Decidable (CfgOk cfg) := by
  unfold CfgOk; infer_instance

/-- Per-gene structural invariant at grid position `gi`: the connection
array has the fixed size `max_inputs`, the used-slot count fits in it, and
every stored connection value lies in the legal range of `gi`. -/
def geneOk (cfg : CgpConfig) (gi : Nat) (g : Gene) : Prop :=
  g.inputs.length = cfg.max_inputs ∧ g.num_inputs ≤ cfg.max_inputs ∧
  ∀ i < g.inputs.length,
    (legalRange cfg gi).1 ≤ g.inputs.getD i 0 ∧ g.inputs.getD i 0 < (legalRange cfg gi).2

instance (cfg : CgpConfig) (gi : Nat) (g : Gene) : Decidable (geneOk cfg gi g) := by
  unfold geneOk; infer_instance

/-- All genes of a genotype satisfy the per-gene invariant at their own
position. -/
def genesOk (cfg : CgpConfig) (genes : List Gene) : Prop :=
  ∀ gi < genes.length, geneOk cfg gi (genes.getD gi default)

instance (cfg : CgpConfig) (genes : List Gene) : Decidable (genesOk cfg genes) := by
  unfold genesOk; infer_instance

/-- The claim-facing property: every live connection value (slots up to the
used-slot count of each gene) lies in the half-open legal range of its
position. -/
def liveConnOk (cfg : CgpConfig) (genes : List Gene) : Prop :=
  ∀ gi < genes.length, ∀ i < (genes.getD gi default).num_inputs,
    (legalRange cfg gi).1 ≤ (genes.getD gi default).inputs.getD i 0 ∧
    (genes.getD gi default).inputs.getD i 0 < (legalRange cfg gi).2

instance (cfg : CgpConfig) (genes : List Gene) : Decidable (liveConnOk cfg genes) := by
  unfold liveConnOk; infer_instance

/-- Gene-sequence layout: `num_nodes + num_output` genes, function genes on
the grid positions and output genes on the final positions. -/
def layoutOk (cfg : CgpConfig) (genes : List Gene) : Prop :=
  genes.length = cfg.num_nodes + cfg.num_output ∧
  ∀ i < genes.length, (genes.getD i default).is_output = decide (cfg.num_nodes ≤ i)

instance (cfg : CgpConfig) (genes : List Gene) : Decidable (layoutOk cfg genes) := by
  unfold layoutOk; infer_instance

/-! ### Concrete instances used by witnesses and counterexamples

A 1x2 grid with level-back 2: node 0 may read only the external input,
node 1 may read the external input or node 0, and the output gene may read
either node.  Two unary functions, mutation rate 1/10 (budget floor 0). -/

def cfgW : CgpConfig := ⟨1, 2, 2, [1, 1], 1, 10⟩

/-- Same grid with a single-member function set (the degenerate case). -/
def cfgS : CgpConfig := ⟨1, 2, 2, [1], 1, 10⟩

/-- A spawned genotype on the 1x2 grid: node 0 reads the external input,
node 1 reads node 0, the output gene reads node 0 (so node 1 is inactive). -/
def genesW : List Gene :=
  [Gene.functionGen 0 1 [0], Gene.functionGen 0 1 [1], Gene.outputGen 1 [1]]

def indW : Individual := ⟨genesW, some (check_active cfgW genesW), none⟩

/-- The same gene list viewed as a genotype of the single-function config. -/
def indS : Individual := ⟨genesW, some (check_active cfgS genesW), none⟩

/-- A deterministic raw-draw stream: draws 2, 1, 1, then zeros.  Under
`cfgW` it makes the mutation loop pick the output gene, flip the coin to
mutate, and rewire it from node 0 to node 1. -/
def wrng : Nat → Nat := fun k => [2, 1, 1].getD k 0

/-- The all-zero raw-draw stream (always picks gene index 0). -/
def zrng : Nat → Nat := fun _ => 0

/-- Result of `mutate cfgW wrng true 5 indW 0`: the output gene now reads
node 1, activating it. -/
def indW' : Individual :=
  ⟨[Gene.functionGen 0 1 [0], Gene.functionGen 0 1 [1], Gene.outputGen 1 [2]],
   some [true, true, true], none⟩

/-- A one-cell heap holding the parent genotype of `indW`. -/
def heapW : Heap := [(genesW, check_active cfgW genesW)]

/-- The heap after cloning the parent and running one forced mutation on the
clone: the parent cell is untouched, the clone cell was rewired. -/
def outW : Heap :=
  [(genesW, check_active cfgW genesW), (indW'.genes, [true, true, true])]

/-- The four-genome population refuting the peel-step description:
genome 0 dominates 2 and 3, genome 3 dominates 2, genome 1 is incomparable
to everything. -/
def popC1 : List EvalGenome := [⟨6, 6⟩, ⟨2, 2⟩, ⟨4, 8⟩, ⟨5, 7⟩]

/-! ### Theorems -/

/-- C1 (code_bug): the peel loop of `fast_non_dominated_sort` decrements the
domination count of EVERY genome once per member of the current front (the
dominated-set loop `for q in S[p]:` is commented out in the source), not
only of the genomes the member dominates.  On `popC1` the code therefore
puts genome 2 into front 1 together with genome 3, although genome 3
dominates genome 2 — impossible under the peel step the claim describes,
since a genome whose dominator sits in the same front still has a positive
count when that front is formed. -/
theorem C1_peel_code_bug :
    fastNonDominatedSort popC1 = [[0, 1], [3, 2]] ∧
    dominates (popC1.getD 3 default) (popC1.getD 2 default) := by
  constructor
  · decide
  · decide

/-- C5 (confirmed): the selection scan replaces the parent in place, so the
third child (score 11/20) is compared against the just-promoted child
(score 3/5) and loses, although it would have beaten the original parent
(score 1/2); the parent after the generation has score 3/5 = 0.6. -/
theorem C5_select_in_place :
    (selectLoop (fun p c => decide (p < c)) (1/2) [2/5, 3/5, 11/20] 0).1 = 3/5 ∧
    (1 : ℚ)/2 < 11/20 ∧ ¬ ((3 : ℚ)/5 < 11/20) := by
  refine ⟨?_, by norm_num, by norm_num⟩
  norm_num [selectLoop, List.foldl]

/-- C2 (code_bug): `current_epoch += 1` sits inside the per-child selection
loop (line 580, a sibling of the `if child.score > 0:` test), so the
counter advances once per child — `num_children` times per generation —
not once per generation.  With `max_epochs = 2` and two children the loop
body executes only once, not twice (whatever the scores are), and with
`max_epochs = 10` and two children it executes five times, not ten. -/
theorem C2_epoch_code_bug :
    runLoop (fun _ _ => false) 2 2 (fun _ _ => 1) 10 1 0 0 = some (1, 1) ∧
    runLoop (fun _ _ => false) 2 2 (fun _ _ => (-1 : ℚ)) 10 1 0 0 = some (1, 1) ∧
    runLoop (fun _ _ => false) 10 2 (fun _ _ => 1) 20 1 0 0 = some (1, 5) := by
  exact ⟨by decide, by decide, by decide⟩

/-- C8 (counterexample): checkpoint content that is not a valid
`Individual` and does not expose a `score` attribute (for example a pickled
integer) makes `load_parent` raise inside the
`print("loaded file %s with score %.4f" ...)` statement, which runs before
the `isinstance` check — not warn-and-return-none as the claim states. -/
theorem C8_counterexample :
    load_parent (some (FileContent.pickled PickleValue.otherNoScore))
      = Except.error "AttributeError" ∧
    load_parent (some (FileContent.pickled PickleValue.otherNoScore))
      ≠ Except.ok none := by
  refine ⟨rfl, fun h => by cases h⟩

/-- C8 (amended, corrected): `load_parent` returns none when the path is
absent, and warns and returns none when the unpickled content is a
non-`Individual` that does expose a numeric score; in the none cases the
run bootstraps a fresh random parent.  Content without a score attribute,
or bytes `pickle.load` rejects, raise instead. -/
theorem C8_load_parent_amended :
    load_parent none = Except.ok none ∧
    (∀ s, load_parent (some (FileContent.pickled (PickleValue.otherWithScore s)))
        = Except.ok none) ∧
    (∀ cfg rng pos, (bootstrapParent cfg rng none pos).1 = (spawn cfg rng pos).1) ∧
    load_parent (some FileContent.unreadable) = Except.error "UnpicklingError" :=
  ⟨rfl, fun _ => rfl, fun _ _ _ => rfl, rfl⟩

/-- Helper for C7: with a single-member function set every draw equals the
current function index, so the resampling loop of
`__mutate_function_gene` never exits, whatever the stream and fuel. -/
theorem resampleFnc_single (rng : Nat → Nat) :
    ∀ fuel pos, resampleFnc cfgS rng 0 fuel pos = none := by
  intro fuel
  induction fuel with
  | zero => intro pos; rfl
  | succ n ih =>
      intro pos
      have hr : randint rng pos cfgS.num_func_genes = 0 := by
        simp [randint, cfgS, CgpConfig.num_func_genes, Nat.mod_one]
      simp only [resampleFnc, hr, if_pos]
      exact ih (pos + 1)

/-- Helper for C7: under the all-zero stream the mutation loop always draws
gene index 0 (a function gene with `fnc_idx = 0`), so the whole budget loop
inherits the divergence of the function-gene resampling. -/
theorem mutateLoopS_none :
    ∀ fuel pos, mutateLoop cfgS zrng 0 fuel genesW 0 pos = none := by
  intro fuel pos
  cases fuel with
  | zero => rfl
  | succ n =>
      have hidx : randint zrng pos genesW.length = 0 := by
        simp [randint, zrng, genesW]
      have hmfg : mutateFunctionGene cfgS zrng (genesW.getD 0 default) n (pos + 1) = none := by
        show mutateFunctionGene cfgS zrng (Gene.functionGen 0 1 [0]) n (pos + 1) = none
        simp only [mutateFunctionGene, resampleFnc_single]
      simp only [mutateLoop, hidx, hmfg]
      norm_num [cfgS, CgpConfig.num_nodes]

/-- Helper: on a spawned individual, one step of `mutate` returns `none` as
soon as its budget loop does. -/
theorem mutate_of_loop_none (cfg : CgpConfig) (rng : Nat → Nat) (force : Bool)
    (fuel : Nat) (ind : Individual) (pos : Nat)
    (hsp : ind.is_spawned = true)
    (h : mutateLoop cfg rng (mutateBound cfg ind.genes.length) fuel ind.genes 0 pos = none) :
    mutate cfg rng force (fuel + 1) ind pos = none := by
  simp only [mutate, hsp, if_true, h]

/-- C7 (code_bug): the source has no degenerate-case detection: when the
function set has exactly one member, `__mutate_function_gene` resamples
`randint(1)` forever (it always draws the current index), so `mutate` on a
spawned genotype never terminates once a function-gene index is drawn,
instead of treating the attempt as a no-op that does not count toward the
budget. -/
theorem C7_single_function_diverges :
    (∀ rng fuel pos, mutateFunctionGene cfgS rng (Gene.functionGen 0 1 [0]) fuel pos = none) ∧
    (∀ fuel pos, mutate cfgS zrng true fuel indS pos = none) := by
  constructor
  · intro rng fuel pos
    simp only [mutateFunctionGene, resampleFnc_single]
  · intro fuel pos
    cases fuel with
    | zero => rfl
    | succ n =>
        refine mutate_of_loop_none cfgS zrng true n indS pos rfl ?_
        have hb : mutateBound cfgS indS.genes.length = 0 := rfl
        rw [hb]
        exact mutateLoopS_none n pos

/-- C6 (counterexample): on the 1x2 grid with three genes and mutation rate
1/10, the claimed budget is `round(3 * 0.1) = 0` successful events, but the
loop `while cnt <= int(3 * 0.1):` runs until `cnt` exceeds 0, and the run
under `wrng` applies exactly one successful event. -/
theorem C6_counterexample :
    mutateLoop cfgW wrng (mutateBound cfgW genesW.length) 10 genesW 0 0 =
      some ([Gene.functionGen 0 1 [0], Gene.functionGen 0 1 [1], Gene.outputGen 1 [2]], 1, 3) ∧
    round ((genesW.length : ℚ) * ((cfgW.mr_num : ℚ) / (cfgW.mr_den : ℚ))) = 0 ∧
    (1 : ℕ) ≠ 0 := by
  refine ⟨by decide, ?_, by decide⟩
  norm_num [cfgW, genesW, round_eq]

/-- List helper: writing one cell leaves every other cell unchanged. -/
theorem getD_set_ne {α : Type} (l : List α) (i j : Nat) (v d : α) (h : i ≠ j) :
    (l.set i v).getD j d = l.getD j d := by
  rw [List.getD_eq_getElem?_getD, List.getD_eq_getElem?_getD, List.getElem?_set_ne h]

/-- List helper: writing a cell in range stores the value. -/
theorem getD_set_self {α : Type} (l : List α) (i : Nat) (v d : α) (h : i < l.length) :
    (l.set i v).getD i d = v := by
  rw [List.getD_eq_getElem?_getD, List.getElem?_set_self h]
  rfl

/-- List helper: reading `List.range` with a default. -/
theorem getD_range (n j : Nat) (h : j < n) : (List.range n).getD j 0 = j := by
  rw [List.getD_eq_getElem?_getD, List.getElem?_range h]
  rfl

/-- C3 (confirmed): whenever `mutate` with `force` returns on a spawned
genotype, the recomputed active mask differs from the mask held immediately
before the call; an identical mask sends the computation into the
retry-from-scratch branch instead of returning. -/
theorem C3_forced_mutation_changes_mask (cfg : CgpConfig) (rng : Nat → Nat) :
    ∀ fuel ind pos out, ind.is_spawned = true →
      mutate cfg rng true fuel ind pos = some out → out.1.active ≠ ind.active := by
  intro fuel
  induction fuel with
  | zero =>
      intro ind pos out _ h
      simp [mutate] at h
  | succ n ih =>
      intro ind pos out hsp h
      simp only [mutate, hsp, if_true] at h
      split at h
      · exact absurd h (by simp)
      · rename_i genes1 cnt pos1 heq
        split at h
        · rename_i hcond
          have h2 := ih _ _ _ (by rfl) h
          rw [← hcond.2]
          exact h2
        · rename_i hcond
          injection h with h
          subst h
          intro heq2
          exact hcond ⟨by simp, heq2⟩

/-- Witness for C3 at the concrete 1x2 genotype: the forced mutation under
`wrng` rewires the output gene to node 1 and the mask flips from
`[true, false, true]` to `[true, true, true]`. -/
theorem C3_witness :
    indW.is_spawned = true ∧ mutate cfgW wrng true 5 indW 0 = some (indW', 3) ∧
      (indW', 3).1.active ≠ indW.active :=
  ⟨rfl, by decide,
    C3_forced_mutation_changes_mask cfgW wrng 5 indW 0 (indW', 3) rfl (by decide)⟩

/-- Helper for C9: one `mutate` call through the heap writes only the cell
of the individual it is called on. -/
theorem mutateAt_frame (cfg : CgpConfig) (rng : Nat → Nat) (fuel : Nat)
    (h : Heap) (c pos : Nat) (out : Heap × Nat) (p : Nat)
    (d : List Gene × List Bool) (hne : p ≠ c)
    (hm : mutateAt cfg rng fuel h c pos = some out) :
    List.getD out.1 p d = List.getD h p d := by
  simp only [mutateAt] at hm
  split at hm
  · exact absurd hm (by simp)
  · rename_i ind' pos' hmut
    injection hm with hm
    subst hm
    exact getD_set_ne _ _ _ _ _ (fun hpc => hne hpc.symm)

/-- Helper for C9: a whole sequence of `mutate` calls on the individual at
address `c` leaves every other address unchanged. -/
theorem mutateSeq_frame (cfg : CgpConfig) (c p : Nat) (d : List Gene × List Bool)
    (hne : p ≠ c) :
    ∀ steps (h0 : Heap) (out : Heap), mutateSeq cfg c steps h0 = some out →
      List.getD out p d = List.getD h0 p d := by
  intro steps
  induction steps with
  | nil =>
      intro h0 out h
      injection h with h
      subst h
      rfl
  | cons s rest ih =>
      intro h0 out h
      obtain ⟨rng, fuel, pos⟩ := s
      simp only [mutateSeq] at h
      split at h
      · exact absurd h (by simp)
      · rename_i h1 pos1 heq
        rw [ih _ _ h]
        exact mutateAt_frame cfg rng fuel h0 c pos (h1, pos1) p d hne heq

/-- C9 (confirmed): `clone` deep-copies the gene array and copies the mask
into a freshly allocated cell, so any sequence of `mutate` calls on the
clone leaves the source genotype's gene array and active mask untouched. -/
theorem C9_clone_independence (cfg : CgpConfig) (h : Heap) (p : Nat)
    (steps : List ((Nat → Nat) × Nat × Nat)) (out : Heap)
    (hp : p < h.length)
    (hrun : mutateSeq cfg (cloneAlloc h p).2 steps (cloneAlloc h p).1 = some out) :
    List.getD out p ([], []) = List.getD h p ([], []) := by
  have hne : p ≠ (cloneAlloc h p).2 := by
    simp only [cloneAlloc]
    omega
  rw [mutateSeq_frame cfg (cloneAlloc h p).2 p ([], []) hne steps _ out hrun]
  exact List.getD_append _ _ _ _ hp

/-- Witness for C9: cloning the one-cell heap and forcibly mutating the
clone yields `outW`, whose parent cell still holds the original genes and
mask. -/
theorem C9_witness :
    0 < heapW.length ∧
    mutateSeq cfgW (cloneAlloc heapW 0).2 [(wrng, 5, 0)] (cloneAlloc heapW 0).1 = some outW ∧
    List.getD outW 0 ([], []) = List.getD heapW 0 ([], []) :=
  ⟨by decide, by decide,
    C9_clone_independence cfgW heapW 0 [(wrng, 5, 0)] outW (by decide) (by decide)⟩

/-- Helper for C6: once the event count exceeds the budget, the loop
returns its state unchanged (given any remaining fuel). -/
theorem mutateLoop_exit (cfg : CgpConfig) (rng : Nat → Nat) (bound fuel : Nat)
    (genes : List Gene) (cnt pos : Nat) (hgt : bound < cnt) :
    mutateLoop cfg rng bound (fuel + 1) genes cnt pos = some (genes, cnt, pos) := by
  simp only [mutateLoop]
  rw [if_neg (by omega)]

/-- Helper for C6: whenever the budget loop finishes, the number of counted
mutation events lands in `[bound + 1, bound + 2]`: the loop body runs while
`cnt <= bound` and each iteration adds at most two events (the function
mutation always counts, the connection mutation counts only on success). -/
theorem mutateLoop_bounds (cfg : CgpConfig) (rng : Nat → Nat) (bound : Nat) :
    ∀ fuel genes cnt pos out, mutateLoop cfg rng bound fuel genes cnt pos = some out →
      cnt ≤ bound → bound + 1 ≤ out.2.1 ∧ out.2.1 ≤ bound + 2 := by
  intro fuel
  induction fuel with
  | zero =>
      intro genes cnt pos out h _
      simp [mutateLoop] at h
  | succ n ih =>
      intro genes cnt pos out h hle
      simp only [mutateLoop] at h
      rw [if_pos hle] at h
      split at h
      · simp at h
      · rename_i genes1 cnt1 pos2 heq
        split at h
        · simp at h
        · rename_i g success pos3 hconn
          have hcnt1 : cnt1 = cnt ∨ cnt1 = cnt + 1 := by
            split at heq
            · split at heq
              · simp at heq
              · simp only [Option.some.injEq, Prod.mk.injEq] at heq
                exact Or.inr heq.2.1.symm
            · simp only [Option.some.injEq, Prod.mk.injEq] at heq
              exact Or.inl heq.2.1.symm
          have hsle : (if success then 1 else 0) ≤ 1 := by cases success <;> simp
          by_cases hc : cnt1 + (if success then 1 else 0) ≤ bound
          · exact ih _ _ _ _ h hc
          · cases n with
            | zero => simp [mutateLoop] at h
            | succ m =>
                rw [mutateLoop_exit cfg rng bound m _ _ _ (by omega)] at h
                simp only [Option.some.injEq] at h
                subst h
                dsimp only
                omega

/-- C6 (amended, corrected): starting from a zero count, the budget loop of
`mutate` applies between `B + 1` and `B + 2` successful mutation events
before the active mask is recomputed, where
`B = int(num_genes * mutation_rate)` is the truncated (not rounded) budget;
failed connection attempts do not count, function-gene attempts always
count. -/
theorem C6_budget_bounds (cfg : CgpConfig) (rng : Nat → Nat) (fuel : Nat)
    (genes : List Gene) (pos : Nat) (out : List Gene × Nat × Nat)
    (h : mutateLoop cfg rng (mutateBound cfg genes.length) fuel genes 0 pos = some out) :
    mutateBound cfg genes.length + 1 ≤ out.2.1 ∧
      out.2.1 ≤ mutateBound cfg genes.length + 2 :=
  mutateLoop_bounds cfg rng _ fuel genes 0 pos out h (Nat.zero_le _)

/-- Witness for C6 at the concrete run under `wrng`: the budget is 0 and
exactly one successful event is applied. -/
theorem C6_witness :
    mutateLoop cfgW wrng (mutateBound cfgW genesW.length) 10 genesW 0 0 =
      some (indW'.genes, 1, 3) ∧
    (mutateBound cfgW genesW.length + 1 ≤ ((indW'.genes, 1, 3) : List Gene × Nat × Nat).2.1 ∧
      ((indW'.genes, 1, 3) : List Gene × Nat × Nat).2.1 ≤ mutateBound cfgW genesW.length + 2) :=
  ⟨by decide, C6_budget_bounds cfgW wrng 10 genesW 0 (indW'.genes, 1, 3) (by decide)⟩

/-- Helper: any entry of a list of naturals is at most its `foldr max 0`
(the model of `np.max`). -/
theorem getD_le_foldr_max : ∀ (l : List Nat) (i : Nat), l.getD i 0 ≤ l.foldr max 0 := by
  intro l
  induction l with
  | nil => intro i; simp [List.getD_nil]
  | cons a t ih =>
      intro i
      cases i with
      | zero => simp only [List.getD_cons_zero, List.foldr_cons]; exact le_max_left _ _
      | succ j =>
          simp only [List.getD_cons_succ, List.foldr_cons]
          exact le_trans (ih j) (le_max_right _ _)

/-- Helper: on a populated grid with a positive level-back window, the
legal connection range of every position is nonempty. -/
theorem legalRange_lt (cfg : CgpConfig) (hr : 1 ≤ cfg.rows) (hlb : 1 ≤ cfg.level_back)
    (p : Nat) : (legalRange cfg p).1 < (legalRange cfg p).2 := by
  simp only [legalRange, CgpConfig.num_input]
  by_cases hc : cfg.level_back ≤ min (p / cfg.rows) cfg.cols
  · rw [if_pos hc]
    have h2 : (min (p / cfg.rows) cfg.cols - cfg.level_back) * cfg.rows
        < min (p / cfg.rows) cfg.cols * cfg.rows :=
      Nat.mul_lt_mul_of_lt_of_le (by omega) (le_refl cfg.rows) (by omega)
    omega
  · rw [if_neg hc]
    omega

/-- Helper: a draw with positive bound is below the bound. -/
theorem randint_lt (rng : Nat → Nat) (pos bound : Nat) (h : 0 < bound) :
    randint rng pos bound < bound := by
  simp only [randint]
  rw [if_neg (by omega)]
  exact Nat.mod_lt _ h

/-- Helper: the sampled connection list has one entry per slot. -/
theorem sampleInputs_length (rng : Nat → Nat) (mn mx : Nat) :
    ∀ k pos, ((sampleInputs rng mn mx k pos).1).length = k := by
  intro k
  induction k with
  | zero => intro pos; rfl
  | succ n ih => intro pos; simp only [sampleInputs, List.length_cons, ih]

/-- Helper: every sampled connection value lies in `[mn, mx)`. -/
theorem sampleInputs_getD (rng : Nat → Nat) (mn mx : Nat) (hlt : mn < mx) :
    ∀ k pos i, i < k →
      mn ≤ (sampleInputs rng mn mx k pos).1.getD i 0 ∧
      (sampleInputs rng mn mx k pos).1.getD i 0 < mx := by
  intro k
  induction k with
  | zero => intro pos i hi; exact absurd hi (Nat.not_lt_zero i)
  | succ n ih =>
      intro pos i hi
      cases i with
      | zero =>
          simp only [sampleInputs, List.getD_cons_zero]
          have hrand := randint_lt rng pos (mx - mn) (by omega)
          omega
      | succ j =>
          simp only [sampleInputs, List.getD_cons_succ]
          exact ih (pos + 1) j (by omega)

/-- Helper: a freshly initialized gene satisfies the per-gene invariant at
its own grid position. -/
theorem initGene_ok (cfg : CgpConfig) (rng : Nat → Nat) (hcfg : CfgOk cfg)
    (node pos : Nat) : geneOk cfg node (initGene cfg rng node pos).1 := by
  obtain ⟨hr, hlb, hmi⟩ := hcfg
  have hlt := legalRange_lt cfg hr hlb node
  simp only [initGene]
  split
  · refine ⟨?_, ?_, ?_⟩
    · simp only [Gene.inputs]
      exact sampleInputs_length rng _ _ cfg.max_inputs (pos + 1)
    · simp only [Gene.num_inputs, CgpConfig.max_inputs]
      exact getD_le_foldr_max _ _
    · intro i hi
      simp only [Gene.inputs] at hi ⊢
      rw [sampleInputs_length rng _ _ cfg.max_inputs (pos + 1)] at hi
      exact sampleInputs_getD rng _ _ hlt cfg.max_inputs (pos + 1) i hi
  · refine ⟨?_, ?_, ?_⟩
    · simp only [Gene.inputs]
      exact sampleInputs_length rng _ _ cfg.max_inputs pos
    · simp only [Gene.num_inputs]
      exact hmi
    · intro i hi
      simp only [Gene.inputs] at hi ⊢
      rw [sampleInputs_length rng _ _ cfg.max_inputs pos] at hi
      exact sampleInputs_getD rng _ _ hlt cfg.max_inputs pos i hi

/-- Helper: the initialization loop produces one gene per node index. -/
theorem initGenesGo_length (cfg : CgpConfig) (rng : Nat → Nat) :
    ∀ nodes pos, ((initGenesGo cfg rng nodes pos).1).length = nodes.length := by
  intro nodes
  induction nodes with
  | nil => intro pos; rfl
  | cons node rest ih => intro pos; simp only [initGenesGo, List.length_cons, ih]

/-- Helper: each gene produced by the initialization loop satisfies the
invariant at the node index it was built for. -/
theorem initGenesGo_ok (cfg : CgpConfig) (rng : Nat → Nat) (hcfg : CfgOk cfg) :
    ∀ nodes pos j, j < nodes.length →
      geneOk cfg (nodes.getD j 0) ((initGenesGo cfg rng nodes pos).1.getD j default) := by
  intro nodes
  induction nodes with
  | nil => intro pos j hj; exact absurd hj (Nat.not_lt_zero j)
  | cons node rest ih =>
      intro pos j hj
      cases j with
      | zero =>
          simp only [initGenesGo, List.getD_cons_zero]
          exact initGene_ok cfg rng hcfg node pos
      | succ i =>
          simp only [initGenesGo, List.getD_cons_succ]
          exact ih _ i (by simpa using hj)

/-- Helper: `init_genes` establishes the connection-range invariant. -/
theorem initGenes_ok (cfg : CgpConfig) (rng : Nat → Nat) (hcfg : CfgOk cfg)
    (pos : Nat) : genesOk cfg (initGenes cfg rng pos).1 := by
  intro gi hgi
  have hlen := initGenesGo_length cfg rng (List.range (cfg.num_nodes + cfg.num_output)) pos
  have hgi' : gi < (List.range (cfg.num_nodes + cfg.num_output)).length := by
    rw [← hlen]; exact hgi
  have hok := initGenesGo_ok cfg rng hcfg (List.range (cfg.num_nodes + cfg.num_output)) pos gi hgi'
  rwa [getD_range _ _ (by simpa using hgi')] at hok

/-- Helper: `init_genes` produces `num_nodes + num_output` genes. -/
theorem initGenes_length (cfg : CgpConfig) (rng : Nat → Nat) (pos : Nat) :
    ((initGenes cfg rng pos).1).length = cfg.num_nodes + cfg.num_output := by
  rw [show (initGenes cfg rng pos).1 = (initGenesGo cfg rng (List.range (cfg.num_nodes + cfg.num_output)) pos).1 from rfl]
  rw [initGenesGo_length]
  exact List.length_range _

/-- Helper: a freshly initialized gene is an output gene exactly on the
output positions. -/
theorem initGene_is_output (cfg : CgpConfig) (rng : Nat → Nat) (node pos : Nat) :
    ((initGene cfg rng node pos).1).is_output = decide (cfg.num_nodes ≤ node) := by
  simp only [initGene]
  split
  · rename_i hlt
    exact (decide_eq_false (Nat.not_le.mpr hlt)).symm
  · rename_i hge
    exact (decide_eq_true (Nat.not_lt.mp hge)).symm

/-- Helper: gene kinds along the initialization loop. -/
theorem initGenesGo_is_output (cfg : CgpConfig) (rng : Nat → Nat) :
    ∀ nodes pos j, j < nodes.length →
      (((initGenesGo cfg rng nodes pos).1).getD j default).is_output
        = decide (cfg.num_nodes ≤ nodes.getD j 0) := by
  intro nodes
  induction nodes with
  | nil => intro pos j hj; exact absurd hj (Nat.not_lt_zero j)
  | cons node rest ih =>
      intro pos j hj
      cases j with
      | zero =>
          simp only [initGenesGo, List.getD_cons_zero]
          exact initGene_is_output cfg rng node pos
      | succ i =>
          simp only [initGenesGo, List.getD_cons_succ]
          exact ih _ i (by simpa using hj)

/-- Helper: the stored-connection view of `setInput`. -/
theorem setInput_inputs (g : Gene) (i v : Nat) :
    (g.setInput i v).inputs = g.inputs.set i v := by
  cases g <;> rfl

/-- Helper: `setInput` does not change the used-slot count. -/
theorem setInput_num_inputs (g : Gene) (i v : Nat) :
    (g.setInput i v).num_inputs = g.num_inputs := by
  cases g <;> rfl

/-- Helper: `setInput` does not change the gene kind. -/
theorem setInput_is_output (g : Gene) (i v : Nat) :
    (g.setInput i v).is_output = g.is_output := by
  cases g <;> rfl

/-- Helper: the connection resampling loop returns a value in `[mn, mn + span)`. -/
theorem resampleConn_bounds (rng : Nat → Nat) (mn span avoid : Nat) (hs : 0 < span) :
    ∀ fuel pos n pos2, resampleConn rng mn span avoid fuel pos = some (n, pos2) →
      mn ≤ n ∧ n < mn + span := by
  intro fuel
  induction fuel with
  | zero => intro pos n pos2 h; simp [resampleConn] at h
  | succ k ih =>
      intro pos n pos2 h
      simp only [resampleConn] at h
      split at h
      · exact ih _ _ _ h
      · simp only [Option.some.injEq, Prod.mk.injEq] at h
        obtain ⟨h1, _⟩ := h
        subst h1
        have := randint_lt rng pos span hs
        omega

/-- Helper: writing one in-range connection value preserves the per-gene
invariant. -/
theorem geneOk_setInput (cfg : CgpConfig) (gi : Nat) (g : Gene) (i n : Nat)
    (hg : geneOk cfg gi g)
    (hn : (legalRange cfg gi).1 ≤ n ∧ n < (legalRange cfg gi).2) :
    geneOk cfg gi (g.setInput i n) := by
  obtain ⟨hlen, hni, hconn⟩ := hg
  refine ⟨?_, ?_, ?_⟩
  · rw [setInput_inputs, List.length_set]; exact hlen
  · rw [setInput_num_inputs]; exact hni
  · intro j hj
    rw [setInput_inputs, List.length_set] at hj
    rw [setInput_inputs]
    by_cases hij : i = j
    · subst hij
      rw [getD_set_self _ _ _ _ hj]
      exact hn
    · rw [getD_set_ne _ _ _ _ _ hij]
      exact hconn j hj

/-- Helper: the slot scan of the connection mutation preserves the
per-gene invariant (it writes at most one slot, and only in range). -/
theorem connSlots_geneOk (cfg : CgpConfig) (rng : Nat → Nat) (gi fuel : Nat) :
    ∀ slots g pos out, geneOk cfg gi g →
      connSlots rng (legalRange cfg gi).1 (legalRange cfg gi).2 g fuel slots pos = some out →
      geneOk cfg gi out.1 := by
  intro slots
  induction slots with
  | nil =>
      intro g pos out hg h
      simp only [connSlots, Option.some.injEq] at h
      subst h
      exact hg
  | cons i rest ih =>
      intro g pos out hg h
      simp only [connSlots] at h
      split at h
      · rename_i hcond
        split at h
        · simp at h
        · rename_i n pos2 hrc
          simp only [Option.some.injEq] at h
          subst h
          have hb := resampleConn_bounds rng (legalRange cfg gi).1
            ((legalRange cfg gi).2 - (legalRange cfg gi).1) (g.inputs.getD i 0)
            (by omega) fuel (pos + 1) n pos2 hrc
          exact geneOk_setInput cfg gi g i n hg ⟨hb.1, by omega⟩
      · exact ih g (pos + 1) out hg h

/-- Helper: the slot scan never changes the gene kind. -/
theorem connSlots_is_output (rng : Nat → Nat) (mn mx fuel : Nat) :
    ∀ slots g pos out, connSlots rng mn mx g fuel slots pos = some out →
      out.1.is_output = g.is_output := by
  intro slots
  induction slots with
  | nil =>
      intro g pos out h
      simp only [connSlots, Option.some.injEq] at h
      subst h
      rfl
  | cons i rest ih =>
      intro g pos out h
      simp only [connSlots] at h
      split at h
      · split at h
        · simp at h
        · simp only [Option.some.injEq] at h
          subst h
          exact setInput_is_output _ _ _
      · exact ih g (pos + 1) out h

/-- Helper: a successful function-gene mutation keeps the connection array
and stays a function gene with an in-table arity. -/
theorem mutateFunctionGene_geneOk (cfg : CgpConfig) (rng : Nat → Nat) (gi : Nat)
    (g : Gene) (fuel pos : Nat) (out : Gene × Nat)
    (hg : geneOk cfg gi g) (h : mutateFunctionGene cfg rng g fuel pos = some out) :
    geneOk cfg gi out.1 := by
  cases g with
  | outputGen a b => simp [mutateFunctionGene] at h
  | functionGen f a ins =>
      simp only [mutateFunctionGene] at h
      split at h
      · simp at h
      · rename_i f' pos' hres
        simp only [Option.some.injEq] at h
        subst h
        obtain ⟨hlen, _, hconn⟩ := hg
        refine ⟨hlen, ?_, hconn⟩
        simp only [Gene.num_inputs, CgpConfig.max_inputs]
        exact getD_le_foldr_max _ _

/-- Helper: a successful function-gene mutation happens on a function gene
and yields a function gene. -/
theorem mutateFunctionGene_is_output (cfg : CgpConfig) (rng : Nat → Nat)
    (g : Gene) (fuel pos : Nat) (out : Gene × Nat)
    (h : mutateFunctionGene cfg rng g fuel pos = some out) :
    out.1.is_output = g.is_output ∧ g.is_output = false := by
  cases g with
  | outputGen a b => simp [mutateFunctionGene] at h
  | functionGen f a ins =>
      simp only [mutateFunctionGene] at h
      split at h
      · simp at h
      · simp only [Option.some.injEq] at h
        subst h
        exact ⟨rfl, rfl⟩

/-- Helper: overwriting one gene with an invariant-respecting gene keeps
the whole-genotype invariant. -/
theorem genesOk_set (cfg : CgpConfig) (genes : List Gene) (idx : Nat) (g : Gene)
    (hall : genesOk cfg genes) (hg : geneOk cfg idx g) :
    genesOk cfg (genes.set idx g) := by
  intro gi hgi
  rw [List.length_set] at hgi
  by_cases hij : idx = gi
  · subst hij
    rw [getD_set_self _ _ _ _ hgi]
    exact hg
  · rw [getD_set_ne _ _ _ _ _ hij]
    exact hall gi hgi

/-- Helper: overwriting one gene with one of the same kind preserves the
kind at every position. -/
theorem getD_set_is_output (genes : List Gene) (idx : Nat) (g : Gene)
    (hsame : g.is_output = (genes.getD idx default).is_output) :
    ∀ i, ((genes.set idx g).getD i default).is_output
      = (genes.getD i default).is_output := by
  intro i
  by_cases hij : idx = i
  · subst hij
    by_cases hlt : idx < genes.length
    · rw [getD_set_self _ _ _ _ hlt]
      exact hsame
    · rw [List.set_eq_of_length_le (by omega)]
  · rw [getD_set_ne _ _ _ _ _ hij]

/-- Helper: the budget loop preserves the number of genes and every gene's
kind (function mutation replaces a function gene by a function gene,
connection mutation only rewrites one slot). -/
theorem mutateLoop_shape (cfg : CgpConfig) (rng : Nat → Nat) (bound : Nat) :
    ∀ fuel genes cnt pos out, mutateLoop cfg rng bound fuel genes cnt pos = some out →
      out.1.length = genes.length ∧
      ∀ i, (out.1.getD i default).is_output = (genes.getD i default).is_output := by
  intro fuel
  induction fuel with
  | zero => intro genes cnt pos out h; simp [mutateLoop] at h
  | succ n ih =>
      intro genes cnt pos out h
      simp only [mutateLoop] at h
      by_cases hle : cnt ≤ bound
      case neg =>
        rw [if_neg hle] at h
        simp only [Option.some.injEq] at h
        subst h
        exact ⟨rfl, fun i => rfl⟩
      rw [if_pos hle] at h
      split at h
      · simp at h
      · rename_i genes1 cnt1 pos2 heq
        have hg1 : genes1.length = genes.length ∧
            ∀ i, (genes1.getD i default).is_output = (genes.getD i default).is_output := by
          split at heq
          · split at heq
            · simp at heq
            · rename_i g0 p2 hmfg
              simp only [Option.some.injEq, Prod.mk.injEq] at heq
              obtain ⟨h1, _, _⟩ := heq
              subst h1
              have hk := mutateFunctionGene_is_output cfg rng _ n _ (g0, p2) hmfg
              exact ⟨List.length_set _ _ _, getD_set_is_output genes _ g0 hk.1⟩
          · simp only [Option.some.injEq, Prod.mk.injEq] at heq
            obtain ⟨h1, _, _⟩ := heq
            subst h1
            exact ⟨rfl, fun i => rfl⟩
        split at h
        · simp at h
        · rename_i g success pos3 hconn
          simp only [mutateConnectionGene] at hconn
          have hk2 := connSlots_is_output rng _ _ n _ _ _ _ hconn
          have hrec := ih _ _ _ _ h
          constructor
          · rw [hrec.1, List.length_set, hg1.1]
          · intro i
            rw [hrec.2 i, getD_set_is_output genes1 _ g hk2 i, hg1.2 i]

/-- Helper: the budget loop preserves the connection-range invariant on a
populated genotype. -/
theorem mutateLoop_genesOk (cfg : CgpConfig) (rng : Nat → Nat) (bound : Nat) :
    ∀ fuel genes cnt pos out, genesOk cfg genes → 0 < genes.length →
      mutateLoop cfg rng bound fuel genes cnt pos = some out → genesOk cfg out.1 := by
  intro fuel
  induction fuel with
  | zero => intro genes cnt pos out _ _ h; simp [mutateLoop] at h
  | succ n ih =>
      intro genes cnt pos out hall hpos h
      simp only [mutateLoop] at h
      by_cases hle : cnt ≤ bound
      case neg =>
        rw [if_neg hle] at h
        simp only [Option.some.injEq] at h
        subst h
        exact hall
      rw [if_pos hle] at h
      have hidx := randint_lt rng pos genes.length hpos
      split at h
      · simp at h
      · rename_i genes1 cnt1 pos2 heq
        have hg1 : genesOk cfg genes1 ∧ genes1.length = genes.length := by
          split at heq
          · split at heq
            · simp at heq
            · rename_i g0 p2 hmfg
              simp only [Option.some.injEq, Prod.mk.injEq] at heq
              obtain ⟨h1, _, _⟩ := heq
              subst h1
              refine ⟨genesOk_set cfg genes _ _ hall ?_, List.length_set _ _ _⟩
              exact mutateFunctionGene_geneOk cfg rng _ _ n _ (g0, p2) (hall _ hidx) hmfg
          · simp only [Option.some.injEq, Prod.mk.injEq] at heq
            obtain ⟨h1, _, _⟩ := heq
            subst h1
            exact ⟨hall, rfl⟩
        split at h
        · simp at h
        · rename_i g success pos3 hconn
          simp only [mutateConnectionGene] at hconn
          have hidx1 : randint rng pos genes.length < genes1.length := by
            rw [hg1.2]; exact hidx
          have hgok : geneOk cfg (randint rng pos genes.length) g :=
            connSlots_geneOk cfg rng _ n _ _ _ _ (hg1.1 _ hidx1) hconn
          exact ih _ _ _ _ (genesOk_set cfg genes1 _ g hg1.1 hgok)
            (by rw [List.length_set, hg1.2]; exact hpos) h

/-- Helper: a fresh `init_genes` result has the grid layout. -/
theorem initGenes_layoutOk (cfg : CgpConfig) (rng : Nat → Nat) (pos : Nat) :
    layoutOk cfg (initGenes cfg rng pos).1 := by
  constructor
  · exact initGenes_length cfg rng pos
  · intro i hi
    have hlen := initGenes_length cfg rng pos
    have hi' : i < (List.range (cfg.num_nodes + cfg.num_output)).length := by
      rw [List.length_range]
      omega
    have h2 := initGenesGo_is_output cfg rng (List.range (cfg.num_nodes + cfg.num_output)) pos i hi'
    rw [getD_range _ _ (by simpa using hi')] at h2
    exact h2

/-- Helper: `mutate` preserves the connection-range invariant; an
unspawned genotype is first re-initialized, which establishes it. -/
theorem mutate_genesOk (cfg : CgpConfig) (rng : Nat → Nat) (force : Bool)
    (hcfg : CfgOk cfg) :
    ∀ fuel ind pos out, genesOk cfg ind.genes → 0 < ind.genes.length →
      mutate cfg rng force fuel ind pos = some out →
      genesOk cfg out.1.genes ∧ 0 < out.1.genes.length := by
  intro fuel
  induction fuel with
  | zero => intro ind pos out _ _ h; simp [mutate] at h
  | succ n ih =>
      intro ind pos out hall hpos h
      simp only [mutate] at h
      by_cases hsp : ind.is_spawned = true
      · rw [if_pos hsp, if_pos hsp] at h
        split at h
        · simp at h
        · rename_i genes1 cnt1 pos1 hloop
          have hg1 : genesOk cfg genes1 :=
            mutateLoop_genesOk cfg rng _ n _ _ _ (genes1, cnt1, pos1) hall hpos hloop
          have hlen1 : genes1.length = ind.genes.length :=
            (mutateLoop_shape cfg rng _ n _ _ _ (genes1, cnt1, pos1) hloop).1
          split at h
          · exact ih _ _ _ hg1 (by show 0 < genes1.length; omega) h
          · simp only [Option.some.injEq] at h
            subst h
            refine ⟨hg1, ?_⟩
            show 0 < genes1.length
            omega
      · rw [if_neg hsp, if_neg hsp] at h
        have hall0 : genesOk cfg (initGenes cfg rng pos).1 := initGenes_ok cfg rng hcfg pos
        have hpos0 : 0 < (initGenes cfg rng pos).1.length := by
          rw [initGenes_length]
          simp only [CgpConfig.num_output]
          omega
        split at h
        · simp at h
        · rename_i genes1 cnt1 pos1 hloop
          have hg1 : genesOk cfg genes1 :=
            mutateLoop_genesOk cfg rng _ n _ _ _ (genes1, cnt1, pos1) hall0 hpos0 hloop
          have hlen1 : genes1.length = (initGenes cfg rng pos).1.length :=
            (mutateLoop_shape cfg rng _ n _ _ _ (genes1, cnt1, pos1) hloop).1
          split at h
          · exact ih _ _ _ hg1 (by show 0 < genes1.length; omega) h
          · simp only [Option.some.injEq] at h
            subst h
            refine ⟨hg1, ?_⟩
            show 0 < genes1.length
            omega

/-- Helper: `mutate` preserves the gene-sequence layout; an unspawned
genotype is first re-initialized, which establishes it. -/
theorem mutate_layoutOk (cfg : CgpConfig) (rng : Nat → Nat) (force : Bool) :
    ∀ fuel ind pos out, layoutOk cfg ind.genes →
      mutate cfg rng force fuel ind pos = some out → layoutOk cfg out.1.genes := by
  intro fuel
  induction fuel with
  | zero => intro ind pos out _ h; simp [mutate] at h
  | succ n ih =>
      intro ind pos out hl h
      simp only [mutate] at h
      by_cases hsp : ind.is_spawned = true
      · rw [if_pos hsp, if_pos hsp] at h
        split at h
        · simp at h
        · rename_i genes1 cnt1 pos1 hloop
          have hsh := mutateLoop_shape cfg rng _ n _ _ _ (genes1, cnt1, pos1) hloop
          have hl1 : layoutOk cfg genes1 := by
            constructor
            · rw [hsh.1]
              exact hl.1
            · intro i hi
              rw [hsh.2 i]
              exact hl.2 i (by rw [← hsh.1]; exact hi)
          split at h
          · exact ih _ _ _ hl1 h
          · simp only [Option.some.injEq] at h
            subst h
            exact hl1
      · rw [if_neg hsp, if_neg hsp] at h
        have hl0 := initGenes_layoutOk cfg rng pos
        split at h
        · simp at h
        · rename_i genes1 cnt1 pos1 hloop
          have hsh := mutateLoop_shape cfg rng _ n _ _ _ (genes1, cnt1, pos1) hloop
          have hl1 : layoutOk cfg genes1 := by
            constructor
            · rw [hsh.1]
              exact hl0.1
            · intro i hi
              rw [hsh.2 i]
              exact hl0.2 i (by rw [← hsh.1]; exact hi)
          split at h
          · exact ih _ _ _ hl1 h
          · simp only [Option.some.injEq] at h
            subst h
            exact hl1

/-- C4 (confirmed): under a sane configuration, every live connection value
of every gene lies in the half-open legal range of its grid position after
`init_genes` (hence after `spawn`) and after every returning `mutate` call
on a genotype satisfying the invariant. -/
theorem C4_connection_range_invariant (cfg : CgpConfig) (hcfg : CfgOk cfg) :
    (∀ rng pos, liveConnOk cfg (spawn cfg rng pos).1.genes) ∧
    (∀ rng force fuel ind pos out, genesOk cfg ind.genes → 0 < ind.genes.length →
       mutate cfg rng force fuel ind pos = some out → liveConnOk cfg out.1.genes) := by
  have key : ∀ genes, genesOk cfg genes → liveConnOk cfg genes := by
    intro genes hall gi hgi i hi
    obtain ⟨hlen, hni, hconn⟩ := hall gi hgi
    exact hconn i (by omega)
  constructor
  · intro rng pos
    exact key _ (initGenes_ok cfg rng hcfg pos)
  · intro rng force fuel ind pos out hall hpos h
    exact key _ (mutate_genesOk cfg rng force hcfg fuel ind pos out hall hpos h).1

/-- Witness for C4: the invariant evaluated on a concrete spawn under the
all-zero stream and on the concrete mutation result `indW'`. -/
theorem C4_witness :
    CfgOk cfgW ∧ liveConnOk cfgW (spawn cfgW zrng 0).1.genes ∧
    genesOk cfgW indW.genes ∧ 0 < indW.genes.length ∧
    liveConnOk cfgW (indW', 3).1.genes :=
  ⟨by decide,
   (C4_connection_range_invariant cfgW (by decide)).1 zrng 0,
   by decide, by decide,
   (C4_connection_range_invariant cfgW (by decide)).2 wrng true 5 indW 0 (indW', 3)
     (by decide) (by decide) (by decide)⟩

/-- C10 (confirmed): the gene sequence holds function genes on positions
below `num_nodes` and output genes on the final positions, the layout is
established by `init_genes` and preserved by `mutate`, and under it any
index below `num_nodes` (the only indices on which `mutate` invokes the
function-gene mutation) addresses a function gene, so the `fnc_idx` field
access never hits an output gene. -/
theorem C10_gene_layout (cfg : CgpConfig) :
    (∀ rng pos, layoutOk cfg (initGenes cfg rng pos).1) ∧
    (∀ rng force fuel ind pos out, layoutOk cfg ind.genes →
       mutate cfg rng force fuel ind pos = some out → layoutOk cfg out.1.genes) ∧
    (∀ genes idx, layoutOk cfg genes → idx < cfg.num_nodes →
       (genes.getD idx default).is_output = false) := by
  refine ⟨fun rng pos => initGenes_layoutOk cfg rng pos,
    fun rng force => mutate_layoutOk cfg rng force, ?_⟩
  intro genes idx hl hidx
  have hi : idx < genes.length := by
    rw [hl.1]
    omega
  rw [hl.2 idx hi]
  exact decide_eq_false (by omega)

/-- Witness for C10: the layout evaluated on a concrete spawn, on the
concrete mutation result `indW'`, and the function-gene access at index 0. -/
theorem C10_witness :
    layoutOk cfgW (initGenes cfgW zrng 0).1 ∧
    layoutOk cfgW indW.genes ∧
    layoutOk cfgW (indW', 3).1.genes ∧
    (indW.genes.getD 0 default).is_output = false :=
  ⟨(C10_gene_layout cfgW).1 zrng 0,
   by decide,
   (C10_gene_layout cfgW).2.1 wrng true 5 indW 0 (indW', 3) (by decide) (by decide),
   (C10_gene_layout cfgW).2.2 indW.genes 0 (by decide) (by decide)⟩

end CgpNas
